import Mathlib

/-!
Verification of the source-adapter and schema-normalization layer of the
scaling-laws corpus-collection scripts (`scripts/01_collect_raw.py` and
`download_data.py`).

The Python code is shallowly embedded: raw upstream values become the
inductive type `RawVal`, raw records become association lists, Python
exceptions become `Except String`, and Python `None` for optional strings
becomes `Option String`.
-/

set_option maxRecDepth 4000

/-- The whitespace characters stripped by Python `str.strip()` (ASCII part). -/
def pyWS (c : Char) : Bool :=
  c == ' ' || c == '\t' || c == '\n' || c == '\r' || c == '\x0b' || c == '\x0c'

/-- `str.strip()` on a list of characters: drop leading and trailing whitespace. -/
def pyStripList (l : List Char) : List Char :=
  ((l.dropWhile pyWS).reverse.dropWhile pyWS).reverse

/-- Python `s.strip()`. -/
def pyStrip (s : String) : String :=
  String.mk (pyStripList s.data)

/-- A raw upstream field value, as delivered by the external dataset provider:
Python `None`, a string, a list/tuple, a dict (association list), or any other
object (carrying only its truthiness). -/
inductive RawVal where
  | null
  | str (s : String)
  | list (xs : List RawVal)
  | dict (kvs : List (String × RawVal))
  | other (truthy : Bool)

/-- Python truthiness of a raw value. -/
def pyTruthy : RawVal → Bool
  | .null => false
  | .str s => s != ""
  | .list xs => !xs.isEmpty
  | .dict kvs => !kvs.isEmpty
  | .other b => b

/-- Python `a or b`. -/
def pyOr (a b : RawVal) : RawVal :=
  if pyTruthy a then a else b

/-- A raw upstream record (`ex` in the generators): a Python dict. -/
abbrev RawRecord := List (String × RawVal)

/-- Lookup in a Python dict, first match. -/
def dictFind (kvs : List (String × RawVal)) (k : String) : Option RawVal :=
  match kvs.find? (fun kv => kv.1 == k) with
  | some kv => some kv.2
  | none => none

/-- Python `ex.get(k)`: `None` when the key is absent. -/
def rget (r : RawRecord) (k : String) : RawVal :=
  match dictFind r k with
  | some v => v
  | none => .null

/-- Python `ex.get(k, d)`. -/
def rgetD (r : RawRecord) (k : String) (d : RawVal) : RawVal :=
  match dictFind r k with
  | some v => v
  | none => d

/-- Python `" ".join(parts)`. -/
def joinWith (sep : String) : List String → String
  | [] => ""
  | [s] => s
  | s :: rest => s ++ sep ++ joinWith sep rest

/-- The list comprehension in `_to_str`:
`[t.strip() for t in x if isinstance(t, str) and t.strip()]`. -/
def stripParts (xs : List RawVal) : List String :=
  xs.filterMap (fun t =>
    match t with
    | .str s => if pyStrip s == "" then none else some (pyStrip s)
    | _ => none)

mutual

/-- `_to_str` from `scripts/01_collect_raw.py`: normalize a WikiLingua field
(str, list/tuple of strings, or dict with a `"text"` sub-key) to a single
string, `none` otherwise. -/
def _to_str : RawVal → Option String
  | .null => none
  | .str s => some (pyStrip s)
  | .list xs =>
      let parts := stripParts xs
      if parts == [] then none else some (joinWith " " parts)
  | .dict kvs => _to_str_get kvs
  | .other _ => none

/-- The dict branch of `_to_str`: `_to_str(x.get("text"))`. -/
def _to_str_get : List (String × RawVal) → Option String
  | [] => none
  | (k, v) :: rest => if k == "text" then _to_str v else _to_str_get rest

end

/-- `normalize_text` from `download_data.py`: pick the first of
`text`/`content`/`tgt` that is present with a string value and return it
stripped; `None` otherwise (also for non-dict input). -/
def normalize_text (x : RawVal) : Option String :=
  match x with
  | .dict kvs =>
      match dictFind kvs "text" with
      | some (.str s) => some (pyStrip s)
      | _ =>
        match dictFind kvs "content" with
        | some (.str s) => some (pyStrip s)
        | _ =>
          match dictFind kvs "tgt" with
          | some (.str s) => some (pyStrip s)
          | _ => none
  | _ => none

/-! ### Trimming lemmas -/

/-- `dropWhile` is idempotent. -/
theorem dropWhile_self_idem {α : Type} (p : α → Bool) (l : List α) :
    (l.dropWhile p).dropWhile p = l.dropWhile p := by
  induction l with
  | nil => rfl
  | cons a t ih =>
      by_cases h : p a
      · simp [List.dropWhile_cons, h, ih]
      · simp [List.dropWhile_cons, h]

/-- The head of a `dropWhile p` result does not satisfy `p`. -/
theorem head_dropWhile_not {α : Type} (p : α → Bool) (l : List α) {a : α} {t : List α}
    (h : l.dropWhile p = a :: t) : p a = false := by
  induction l with
  | nil => simp at h
  | cons b l ih =>
      rw [List.dropWhile_cons] at h
      by_cases hb : p b
      · rw [if_pos hb] at h; exact ih h
      · rw [if_neg hb] at h
        obtain ⟨rfl, -⟩ := List.cons.inj h.symm
        simpa using hb

/-- `dropWhile p l` is a tail segment of `l`. -/
theorem dropWhile_drops_front {α : Type} (p : α → Bool) (l : List α) :
    ∃ t, l = t ++ l.dropWhile p := by
  induction l with
  | nil => exact ⟨[], rfl⟩
  | cons a l ih =>
      by_cases h : p a
      · obtain ⟨t, ht⟩ := ih
        refine ⟨a :: t, ?_⟩
        simp only [List.dropWhile_cons, h, if_pos, List.cons_append]
        exact congrArg (a :: ·) ht
      · exact ⟨[], by simp [List.dropWhile_cons, h]⟩

/-- No leading whitespace. -/
def LTrim (l : List Char) : Prop := l.dropWhile pyWS = l

/-- No trailing whitespace. -/
def RTrim (l : List Char) : Prop := l.reverse.dropWhile pyWS = l.reverse

theorem strip_of_trims {l : List Char} (h1 : LTrim l) (h2 : RTrim l) :
    pyStripList l = l := by
  unfold pyStripList
  rw [h1, h2, List.reverse_reverse]

theorem rtrim_strip (l : List Char) : RTrim (pyStripList l) := by
  unfold RTrim pyStripList
  rw [List.reverse_reverse]
  exact dropWhile_self_idem pyWS _

theorem ltrim_strip (l : List Char) : LTrim (pyStripList l) := by
  unfold LTrim
  cases hR : pyStripList l with
  | nil => rfl
  | cons x t =>
      have hx : pyWS x = false := by
        obtain ⟨u, hu⟩ := dropWhile_drops_front pyWS (l.dropWhile pyWS).reverse
        have hA : l.dropWhile pyWS = pyStripList l ++ u.reverse := by
          have h2 := congrArg List.reverse hu
          simpa [pyStripList] using h2
        have hcons : l.dropWhile pyWS = x :: (t ++ u.reverse) := by
          rw [hA, hR]; simp
        exact head_dropWhile_not pyWS l hcons
      simp [List.dropWhile_cons, hx]

theorem pyStripList_idem (l : List Char) :
    pyStripList (pyStripList l) = pyStripList l :=
  strip_of_trims (ltrim_strip l) (rtrim_strip l)

theorem pyStrip_idem (s : String) : pyStrip (pyStrip s) = pyStrip s :=
  congrArg String.mk (pyStripList_idem s.data)

/-- A string equal to its own strip, at the character-list level. -/
theorem pyStrip_fixed_iff (s : String) : pyStrip s = s ↔ pyStripList s.data = s.data := by
  constructor
  · intro h
    have := congrArg String.data h
    simpa [pyStrip] using this
  · intro h
    cases s with
    | mk data => exact congrArg String.mk h

theorem length_dropWhile_le {α : Type} (p : α → Bool) (l : List α) :
    (l.dropWhile p).length ≤ l.length := by
  obtain ⟨t, ht⟩ := dropWhile_drops_front p l
  have := congrArg List.length ht
  simp at this
  omega

theorem ltrim_cons {x : Char} {t : List Char} (h : LTrim (x :: t)) : pyWS x = false := by
  by_cases hx : pyWS x
  · unfold LTrim at h
    rw [List.dropWhile_cons, if_pos hx] at h
    have hlen := congrArg List.length h
    have hle := length_dropWhile_le pyWS t
    simp at hlen
    omega
  · simpa using hx

theorem ltrim_append {a b : List Char} (h : LTrim a) (ha : a ≠ []) : LTrim (a ++ b) := by
  cases a with
  | nil => exact absurd rfl ha
  | cons x t =>
      have hx := ltrim_cons h
      unfold LTrim
      simp [List.dropWhile_cons, hx]

theorem rtrim_append {a b : List Char} (h : RTrim b) (hb : b ≠ []) : RTrim (a ++ b) := by
  unfold RTrim
  rw [List.reverse_append]
  have hbr : b.reverse ≠ [] := by
    intro hc
    exact hb (by simpa using congrArg List.reverse hc)
  exact ltrim_append h hbr

/-- A space-join of nonempty trimmed strings is trimmed and nonempty. -/
theorem joinWith_sp_trimmed (parts : List String)
    (h : ∀ p ∈ parts, pyStrip p = p ∧ p ≠ "") :
    pyStrip (joinWith " " parts) = joinWith " " parts ∧
      (parts ≠ [] → joinWith " " parts ≠ "") := by
  induction parts with
  | nil => exact ⟨rfl, fun hc => absurd rfl hc⟩
  | cons s rest ih =>
      cases rest with
      | nil =>
          obtain ⟨h1, h2⟩ := h s (by simp)
          exact ⟨h1, fun _ => h2⟩
      | cons s2 rest2 =>
          obtain ⟨hs1, hs2⟩ := h s (by simp)
          have ihr := ih (fun p hp => h p (by simp [hp]))
          have hjt : pyStrip (joinWith " " (s2 :: rest2)) = joinWith " " (s2 :: rest2) :=
            ihr.1
          have hjne : joinWith " " (s2 :: rest2) ≠ "" := ihr.2 (by simp)
          have hsd : s.data ≠ [] := by
            intro hc
            exact hs2 (String.ext hc)
          have hjd : (joinWith " " (s2 :: rest2)).data ≠ [] := by
            intro hc
            exact hjne (String.ext hc)
          have hdata : (joinWith " " (s :: s2 :: rest2)).data
              = s.data ++ ((" " : String).data ++ (joinWith " " (s2 :: rest2)).data) := by
            show (s ++ " " ++ joinWith " " (s2 :: rest2)).data = _
            rw [String.data_append, String.data_append, List.append_assoc]
          have hL : LTrim (joinWith " " (s :: s2 :: rest2)).data := by
            rw [hdata]
            exact ltrim_append ((pyStrip_fixed_iff s).mp hs1 ▸ ltrim_strip s.data) hsd
          have hR : RTrim (joinWith " " (s :: s2 :: rest2)).data := by
            rw [hdata, ← List.append_assoc]
            exact rtrim_append
              ((pyStrip_fixed_iff _).mp hjt ▸ rtrim_strip _) hjd
          refine ⟨(pyStrip_fixed_iff _).mpr (strip_of_trims hL hR), fun _ => ?_⟩
          intro hc
          have := congrArg String.data hc
          rw [hdata] at this
          simp at this

/-! ### Shape of `_to_str` results (claim C10) -/

/-- Shape of a Field Extractor result: absence, or a string that is its own trim. -/
def TrimShape (o : Option String) : Prop :=
  o = none ∨ ∃ s, o = some s ∧ pyStrip s = s

theorem stripParts_mem {xs : List RawVal} {p : String} (hp : p ∈ stripParts xs) :
    pyStrip p = p ∧ p ≠ "" := by
  unfold stripParts at hp
  rw [List.mem_filterMap] at hp
  obtain ⟨t, _, hmap⟩ := hp
  cases t with
  | str s =>
      by_cases hc : pyStrip s == ""
      · simp [hc] at hmap
      · simp [hc] at hmap
        subst hmap
        refine ⟨pyStrip_idem s, ?_⟩
        simpa using hc
  | null => simp at hmap
  | list xs => simp at hmap
  | dict kvs => simp at hmap
  | other b => simp at hmap

theorem to_str_shape_all : ∀ n : Nat,
    (∀ v : RawVal, sizeOf v ≤ n → TrimShape (_to_str v)) ∧
    (∀ kvs : List (String × RawVal), sizeOf kvs ≤ n → TrimShape (_to_str_get kvs)) := by
  intro n
  induction n using Nat.strong_induction_on with
  | _ n ih =>
    constructor
    · intro v hv
      cases v with
      | null => exact Or.inl rfl
      | str s => exact Or.inr ⟨pyStrip s, rfl, pyStrip_idem s⟩
      | list xs =>
          by_cases hp : stripParts xs == []
          · left
            simp [_to_str, hp]
          · right
            refine ⟨joinWith " " (stripParts xs), by simp [_to_str, hp], ?_⟩
            exact (joinWith_sp_trimmed (stripParts xs)
              (fun p hmem => stripParts_mem hmem)).1
      | dict kvs =>
          have hsz : sizeOf (RawVal.dict kvs) = 1 + sizeOf kvs := by simp
          have hless : sizeOf kvs < n := by omega
          have := (ih (sizeOf kvs) hless).2 kvs (le_refl _)
          simpa [_to_str] using this
      | other b => exact Or.inl rfl
    · intro kvs hk
      cases kvs with
      | nil => exact Or.inl rfl
      | cons kv rest =>
          obtain ⟨k, v⟩ := kv
          have hsz : sizeOf ((k, v) :: rest) = 1 + (1 + sizeOf k + sizeOf v) + sizeOf rest := by
            simp
          rw [_to_str_get]
          by_cases hkey : k == "text"
          · rw [if_pos hkey]
            have hless : sizeOf v < n := by omega
            exact (ih (sizeOf v) hless).1 v (le_refl _)
          · rw [if_neg hkey]
            have hless : sizeOf rest < n := by omega
            exact (ih (sizeOf rest) hless).2 rest (le_refl _)

/-- Feed a Field Extractor result back into the extractor: Python `None`
becomes the absent value, a string stays a string. -/
def liftOpt : Option String → RawVal
  | none => .null
  | some s => .str s

/-- C10: for every input accepted by `_to_str`, the result is either `None` or
a string equal to its own trim; consequently `_to_str` is idempotent. -/
theorem to_str_trimmed_and_idempotent (v : RawVal) :
    (_to_str v = none ∨ ∃ s, _to_str v = some s ∧ pyStrip s = s) ∧
      _to_str (liftOpt (_to_str v)) = _to_str v := by
  have hshape := (to_str_shape_all (sizeOf v)).1 v (le_refl _)
  refine ⟨hshape, ?_⟩
  rcases hshape with h | ⟨s, hs, htrim⟩
  · rw [h]
    rfl
  · rw [hs]
    show _to_str (.str s) = some s
    rw [_to_str, htrim]

/-! ### Record Normalizers (the per-record bodies of the `gen*` generators) -/

/-- Python `v.strip()` on an arbitrary object: succeeds only on strings,
raises `AttributeError` otherwise. -/
def strip_call (v : RawVal) : Except String String :=
  match v with
  | .str s => .ok (pyStrip s)
  | _ => .error "AttributeError: strip"

/-- Python truthiness of an `Optional[str]` value. -/
def optTruthy : Option String → Bool
  | some s => s != ""
  | none => false

/-- Python `a or b` on `Optional[str]` values. -/
def pyOrOpt (a b : Option String) : Option String :=
  if optTruthy a then a else b

/-- One loop iteration of `collect_samanantar.gen_parallel`: strip `src` and
`tgt` (after `or ""`), emit the parallel record iff both are non-empty. -/
def gen_parallel_step (ex : RawRecord) : Except String (Option RawRecord) := do
  let src ← strip_call (pyOr (rget ex "src") (.str ""))
  let tgt ← strip_call (pyOr (rget ex "tgt") (.str ""))
  pure (if src ≠ "" ∧ tgt ≠ "" then
      some [("src_lang", .str "en"), ("tgt_lang", .str "hi"),
            ("src", .str src), ("tgt", .str tgt)]
    else none)

/-- One loop iteration of `collect_samanantar.gen_hi`. -/
def gen_hi_step (ex : RawRecord) : Except String (Option RawRecord) := do
  let tgt ← strip_call (pyOr (rget ex "tgt") (.str ""))
  pure (if tgt ≠ "" then some [("lang", .str "hi"), ("text", .str tgt)] else none)

/-- One loop iteration of `collect_wikipedia.gen`. -/
def gen_wikipedia_step (ex : RawRecord) : Except String (Option RawRecord) := do
  let text ← strip_call (pyOr (rget ex "text") (.str ""))
  pure (if text ≠ "" then
      some [("lang", .str "hi"), ("text", .str text),
            ("title", pyOr (rget ex "title") (.str "")),
            ("url", pyOr (rget ex "url") (.str ""))]
    else none)

/-- One loop iteration of `collect_indicllm.gen`. -/
def gen_indicllm_step (ex : RawRecord) : Except String (Option RawRecord) := do
  let txt ← strip_call (pyOr (pyOr (rget ex "text") (rget ex "content")) (.str ""))
  pure (if txt ≠ "" then
      some [("lang", .str "hi_like"), ("text", .str txt),
            ("note", .str "unfiltered_mixed_hindi_family")]
    else none)

/-- One loop iteration of `collect_wikilingua.gen`: extract `article` and
`summary` (falling back to `highlights` then `summary_text`) with `_to_str`,
emit iff both are truthy. Never reaches `.error`. -/
def gen_wikilingua_step (ex : RawRecord) : Except String (Option RawRecord) :=
  let url := rgetD ex "url" (.str "")
  let article := _to_str (rget ex "article")
  let summary0 := _to_str (rget ex "summary")
  let summary :=
    if optTruthy summary0 then summary0
    else pyOrOpt (_to_str (rget ex "highlights")) (_to_str (rget ex "summary_text"))
  .ok (match article, summary with
    | some a, some s =>
        if a ≠ "" ∧ s ≠ "" then
          some [("lang", .str "hi"), ("article", .str a),
                ("summary", .str s), ("url", url)]
        else none
    | _, _ => none)

/-- One loop iteration of `iter_text` from `download_data.py` (its
normalize-and-emit part): `txt = normalize_text(ex); if txt: yield {"text": txt}`. -/
def iter_text_step (ex : RawVal) : Option RawRecord :=
  match normalize_text ex with
  | some t => if t ≠ "" then some [("text", .str t)] else none
  | none => none

/-! ### Claim C5: the Field Extractor on strings and absent fields -/

/-- C5 counterexample: on a whitespace-only string, `_to_str` returns the
empty string, not the absence marker `None` that the claim requires. -/
theorem to_str_blank_not_none :
    _to_str (RawVal.str " ") = some "" ∧ _to_str (RawVal.str " ") ≠ none := by
  constructor
  · rfl
  · intro h
    simp [_to_str] at h

/-- C5 amended: a string input comes back trimmed (possibly as the empty
string, which callers treat as absence via truthiness, never as `None`);
an absent input yields absence; `normalize_text` behaves the same on its
string branches. -/
theorem field_extractor_string_branch (s : String) :
    _to_str (RawVal.str s) = some (pyStrip s) ∧
    _to_str RawVal.null = none ∧
    normalize_text (RawVal.dict [("text", RawVal.str s)]) = some (pyStrip s) ∧
    normalize_text (RawVal.dict []) = none := by
  refine ⟨by rw [_to_str], rfl, ?_, rfl⟩
  simp [normalize_text, dictFind]

/-! ### Claim C3: the parallel normalizer -/

/-- The field value is a string whose trim is non-empty ("extracts to a
non-empty string" in the spec's sense). -/
def strTrimNE (v : RawVal) : Prop := ∃ s, v = .str s ∧ pyStrip s ≠ ""

theorem pyStrip_empty : pyStrip "" = "" := rfl

/-- What `(v or "").strip()` evaluates to, by the shape of `v`. -/
theorem strip_or_default (v : RawVal) :
    strip_call (pyOr v (.str "")) =
      (match v with
        | .str s => .ok (pyStrip s)
        | .null => .ok ""
        | .list xs => if xs.isEmpty then .ok "" else .error "AttributeError: strip"
        | .dict kvs => if kvs.isEmpty then .ok "" else .error "AttributeError: strip"
        | .other b => if b then .error "AttributeError: strip" else .ok "") := by
  cases v with
  | str s =>
      by_cases h : s = ""
      · subst h; rfl
      · simp [pyOr, pyTruthy, strip_call, h]
  | null => rfl
  | list xs => cases xs <;> simp [pyOr, pyTruthy, strip_call, pyStrip_empty]
  | dict kvs => cases kvs <;> simp [pyOr, pyTruthy, strip_call, pyStrip_empty]
  | other b => cases b <;> rfl

/-- Each side of the parallel normalizer lands in one of three buckets:
stripped to empty, stripped to non-empty, or AttributeError. -/
theorem side_cases (v : RawVal) :
    (strip_call (pyOr v (.str "")) = .ok "" ∧ ¬ strTrimNE v) ∨
    (∃ s, strip_call (pyOr v (.str "")) = .ok s ∧ s ≠ "" ∧ strTrimNE v) ∨
    ((∃ e, strip_call (pyOr v (.str "")) = .error e) ∧ ¬ strTrimNE v) := by
  cases v with
  | null => exact Or.inl ⟨rfl, by simp [strTrimNE]⟩
  | str s =>
      by_cases h : pyStrip s = ""
      · refine Or.inl ⟨?_, ?_⟩
        · rw [strip_or_default]
          show Except.ok (pyStrip s) = Except.ok ""
          rw [h]
        · simp [strTrimNE, h]
      · exact Or.inr (Or.inl ⟨pyStrip s, by rw [strip_or_default], h, ⟨s, rfl, h⟩⟩)
  | list xs =>
      cases xs with
      | nil =>
          exact Or.inl ⟨by rw [strip_or_default]; simp [pyStrip_empty], by simp [strTrimNE]⟩
      | cons a t =>
          exact Or.inr (Or.inr ⟨⟨"AttributeError: strip",
            by rw [strip_or_default]; simp⟩, by simp [strTrimNE]⟩)
  | dict kvs =>
      cases kvs with
      | nil =>
          exact Or.inl ⟨by rw [strip_or_default]; simp [pyStrip_empty], by simp [strTrimNE]⟩
      | cons a t =>
          exact Or.inr (Or.inr ⟨⟨"AttributeError: strip",
            by rw [strip_or_default]; simp⟩, by simp [strTrimNE]⟩)
  | other b =>
      cases b with
      | false =>
          exact Or.inl ⟨by rw [strip_or_default]; simp [pyStrip_empty], by simp [strTrimNE]⟩
      | true =>
          exact Or.inr (Or.inr ⟨⟨"AttributeError: strip",
            by rw [strip_or_default]; simp⟩, by simp [strTrimNE]⟩)

/-- The do-chain of `gen_parallel_step`, flattened. -/
theorem gen_parallel_eq (ex : RawRecord) :
    gen_parallel_step ex =
      match strip_call (pyOr (rget ex "src") (.str "")),
            strip_call (pyOr (rget ex "tgt") (.str "")) with
      | .error e, _ => .error e
      | .ok _, .error e => .error e
      | .ok src, .ok tgt =>
          .ok (if src ≠ "" ∧ tgt ≠ "" then
              some [("src_lang", .str "en"), ("tgt_lang", .str "hi"),
                    ("src", .str src), ("tgt", .str tgt)]
            else none) := by
  unfold gen_parallel_step
  cases strip_call (pyOr (rget ex "src") (.str "")) <;>
    cases strip_call (pyOr (rget ex "tgt") (.str "")) <;>
      simp [Bind.bind, Except.bind, pure, Except.pure]

/-- C3: a ParallelRecord is emitted iff both `src` and `tgt` are strings whose
trim is non-empty; one non-empty side alone yields no record, as on the spec
examples. -/
theorem gen_parallel_emits_iff :
    (∀ ex : RawRecord, (∃ rec, gen_parallel_step ex = .ok (some rec)) ↔
      strTrimNE (rget ex "src") ∧ strTrimNE (rget ex "tgt")) ∧
    gen_parallel_step [("src", .str "Hello"), ("tgt", .str "")] = .ok none ∧
    gen_parallel_step [("src", .str "Hello"), ("tgt", .str "नमस्ते")] =
      .ok (some [("src_lang", .str "en"), ("tgt_lang", .str "hi"),
                 ("src", .str "Hello"), ("tgt", .str "नमस्ते")]) := by
  refine ⟨fun ex => ?_, rfl, rfl⟩
  rw [gen_parallel_eq]
  rcases side_cases (rget ex "src") with ⟨h1, hn1⟩ | ⟨s, h1, hs, ht1⟩ | ⟨⟨e, h1⟩, hn1⟩ <;>
    rcases side_cases (rget ex "tgt") with ⟨h2, hn2⟩ | ⟨t, h2, hts, ht2⟩ | ⟨⟨e2, h2⟩, hn2⟩ <;>
      rw [h1, h2] <;> simp_all

/-! ### Claim C1: normalizers and exceptions -/

/-- C1 counterexample: a raw indicllm record whose `text` field is a list (a
shape `_to_str` handles elsewhere) makes `collect_indicllm`'s generator call
`.strip()` on a list, raising `AttributeError` instead of skipping. -/
theorem gen_indicllm_raises :
    gen_indicllm_step [("text", RawVal.list [RawVal.str "नमस्ते"])] =
      .error "AttributeError: strip" := rfl

/-- The field value is a string, or is falsy (so that `or ""` replaces it). -/
def strOrFalsy (v : RawVal) : Prop := (∃ s, v = .str s) ∨ pyTruthy v = false

theorem strip_ok_of_strOrFalsy {v : RawVal} (h : strOrFalsy v) :
    ∃ s, strip_call (pyOr v (.str "")) = .ok s := by
  rcases h with ⟨s, rfl⟩ | hf
  · exact ⟨pyStrip s, by rw [strip_or_default]⟩
  · exact ⟨"", by simp [pyOr, hf, strip_call, pyStrip_empty]⟩

theorem pyOr_strOrFalsy {a b : RawVal} (ha : strOrFalsy a) (hb : strOrFalsy b) :
    strOrFalsy (pyOr a b) := by
  by_cases h : pyTruthy a
  · simpa [pyOr, h] using ha
  · simpa [pyOr, h] using hb

/-- C1 amended: the wikilingua normalizer never raises, whatever the field
shapes; the samanantar, wikipedia and indicllm normalizers never raise
provided each inspected field value is a string or falsy (a truthy non-string
value makes them raise `AttributeError`, see `gen_indicllm_raises`). -/
theorem normalizers_no_raise :
    (∀ ex : RawRecord, ∃ o, gen_wikilingua_step ex = .ok o) ∧
    (∀ ex : RawRecord, strOrFalsy (rget ex "src") → strOrFalsy (rget ex "tgt") →
      ∃ o, gen_parallel_step ex = .ok o) ∧
    (∀ ex : RawRecord, strOrFalsy (rget ex "tgt") → ∃ o, gen_hi_step ex = .ok o) ∧
    (∀ ex : RawRecord, strOrFalsy (rget ex "text") → ∃ o, gen_wikipedia_step ex = .ok o) ∧
    (∀ ex : RawRecord, strOrFalsy (rget ex "text") → strOrFalsy (rget ex "content") →
      ∃ o, gen_indicllm_step ex = .ok o) := by
  refine ⟨fun ex => ⟨_, rfl⟩, fun ex h1 h2 => ?_, fun ex h1 => ?_, fun ex h1 => ?_,
    fun ex h1 h2 => ?_⟩
  · obtain ⟨s, hs⟩ := strip_ok_of_strOrFalsy h1
    obtain ⟨t, ht⟩ := strip_ok_of_strOrFalsy h2
    rw [gen_parallel_eq, hs, ht]
    exact ⟨_, rfl⟩
  · obtain ⟨s, hs⟩ := strip_ok_of_strOrFalsy h1
    unfold gen_hi_step
    rw [hs]
    exact ⟨_, rfl⟩
  · obtain ⟨s, hs⟩ := strip_ok_of_strOrFalsy h1
    unfold gen_wikipedia_step
    rw [hs]
    exact ⟨_, rfl⟩
  · obtain ⟨s, hs⟩ := strip_ok_of_strOrFalsy (pyOr_strOrFalsy h1 h2)
    unfold gen_indicllm_step
    rw [hs]
    exact ⟨_, rfl⟩

/-- Witness for `normalizers_no_raise` at concrete records. -/
theorem normalizers_no_raise_witness :
    (∃ o, gen_wikilingua_step [("article", RawVal.str "A")] = .ok o) ∧
    (∃ o, gen_parallel_step [("src", RawVal.str "a"), ("tgt", RawVal.str "b")] = .ok o) ∧
    (∃ o, gen_hi_step [("tgt", RawVal.str "b")] = .ok o) ∧
    (∃ o, gen_wikipedia_step [("text", RawVal.str "c")] = .ok o) ∧
    (∃ o, gen_indicllm_step [("content", RawVal.str "d")] = .ok o) :=
  ⟨normalizers_no_raise.1 _,
   normalizers_no_raise.2.1 _ (Or.inl ⟨"a", rfl⟩) (Or.inl ⟨"b", rfl⟩),
   normalizers_no_raise.2.2.1 _ (Or.inl ⟨"b", rfl⟩),
   normalizers_no_raise.2.2.2.1 _ (Or.inl ⟨"c", rfl⟩),
   normalizers_no_raise.2.2.2.2 _ (Or.inr rfl) (Or.inl ⟨"d", rfl⟩)⟩

/-! ### Claim C4: monolingual record invariants -/

theorem strip_call_trimmed {v : RawVal} {s : String} (h : strip_call v = .ok s) :
    pyStrip s = s := by
  cases v <;> simp [strip_call] at h
  subst h
  exact pyStrip_idem _

theorem normalize_text_trimmed {x : RawVal} {t : String}
    (h : normalize_text x = some t) : pyStrip t = t := by
  unfold normalize_text at h
  cases x <;> simp at h
  case dict kvs =>
    repeat' split at h
    all_goals simp_all
    all_goals exact h ▸ pyStrip_idem _

/-- C4 counterexample: `iter_text` emits `{"text": ...}` with no `lang` field
at all, against the claimed MonolingualRecord invariant. -/
theorem iter_text_record_lacks_lang :
    iter_text_step (RawVal.dict [("text", RawVal.str "नमस्ते")]) =
      some [("text", RawVal.str "नमस्ते")] ∧
    dictFind [("text", RawVal.str "नमस्ते")] "lang" = none := ⟨rfl, rfl⟩

/-- C4 amended: records from the `01_collect_raw.py` monolingual generators
carry a `lang` field and a non-empty trimmed `text`; `iter_text` records carry
a non-empty trimmed `text` but no `lang` field. -/
theorem mono_records_lang_text :
    (∀ (ex : RawRecord) (rec : RawRecord), gen_hi_step ex = .ok (some rec) →
      dictFind rec "lang" = some (.str "hi") ∧
      ∃ t, dictFind rec "text" = some (.str t) ∧ t ≠ "" ∧ pyStrip t = t) ∧
    (∀ (ex : RawRecord) (rec : RawRecord), gen_wikipedia_step ex = .ok (some rec) →
      dictFind rec "lang" = some (.str "hi") ∧
      ∃ t, dictFind rec "text" = some (.str t) ∧ t ≠ "" ∧ pyStrip t = t) ∧
    (∀ (ex : RawRecord) (rec : RawRecord), gen_indicllm_step ex = .ok (some rec) →
      dictFind rec "lang" = some (.str "hi_like") ∧
      ∃ t, dictFind rec "text" = some (.str t) ∧ t ≠ "" ∧ pyStrip t = t) ∧
    (∀ (ex : RawVal) (rec : RawRecord), iter_text_step ex = some rec →
      dictFind rec "lang" = none ∧
      ∃ t, dictFind rec "text" = some (.str t) ∧ t ≠ "" ∧ pyStrip t = t) := by
  refine ⟨fun ex rec h => ?_, fun ex rec h => ?_, fun ex rec h => ?_, fun ex rec h => ?_⟩
  · unfold gen_hi_step at h
    cases hsc : strip_call (pyOr (rget ex "tgt") (.str "")) with
    | error e => rw [hsc] at h; simp [Bind.bind, Except.bind] at h
    | ok s =>
        rw [hsc] at h
        simp [Bind.bind, Except.bind, pure, Except.pure] at h
        obtain ⟨hne, rfl⟩ := h
        exact ⟨rfl, s, rfl, hne, strip_call_trimmed hsc⟩
  · unfold gen_wikipedia_step at h
    cases hsc : strip_call (pyOr (rget ex "text") (.str "")) with
    | error e => rw [hsc] at h; simp [Bind.bind, Except.bind] at h
    | ok s =>
        rw [hsc] at h
        simp [Bind.bind, Except.bind, pure, Except.pure] at h
        obtain ⟨hne, rfl⟩ := h
        exact ⟨rfl, s, rfl, hne, strip_call_trimmed hsc⟩
  · unfold gen_indicllm_step at h
    cases hsc : strip_call (pyOr (pyOr (rget ex "text") (rget ex "content")) (.str "")) with
    | error e => rw [hsc] at h; simp [Bind.bind, Except.bind] at h
    | ok s =>
        rw [hsc] at h
        simp [Bind.bind, Except.bind, pure, Except.pure] at h
        obtain ⟨hne, rfl⟩ := h
        exact ⟨rfl, s, rfl, hne, strip_call_trimmed hsc⟩
  · unfold iter_text_step at h
    cases hnt : normalize_text ex with
    | none => rw [hnt] at h; simp at h
    | some t =>
        rw [hnt] at h
        simp at h
        obtain ⟨hne, rfl⟩ := h
        exact ⟨rfl, t, rfl, hne, normalize_text_trimmed hnt⟩

/-- Witness for `mono_records_lang_text` at concrete records. -/
theorem mono_records_lang_text_witness :
    (dictFind [("lang", RawVal.str "hi"), ("text", RawVal.str "x")] "lang"
        = some (.str "hi") ∧
      ∃ t, dictFind [("lang", RawVal.str "hi"), ("text", RawVal.str "x")] "text"
        = some (.str t) ∧ t ≠ "" ∧ pyStrip t = t) ∧
    (dictFind [("text", RawVal.str "w")] "lang" = none ∧
      ∃ t, dictFind [("text", RawVal.str "w")] "text"
        = some (.str t) ∧ t ≠ "" ∧ pyStrip t = t) :=
  ⟨mono_records_lang_text.1 [("tgt", RawVal.str "x")] _ rfl,
   mono_records_lang_text.2.2.2 (RawVal.dict [("text", RawVal.str "w")]) _ rfl⟩

/-! ### Claim C6: the summarization normalizer -/

/-- Spec-side definition (refinement target), following the spec's words: the
summary comes from the ordered candidate list `[summary, highlights,
summary_text]`, the first candidate whose extraction is present and non-empty
winning; `none` when no candidate qualifies. -/
def summarySpec (ex : RawRecord) : Option String :=
  ([_to_str (rget ex "summary"), _to_str (rget ex "highlights"),
    _to_str (rget ex "summary_text")].find? optTruthy).join

theorem find_join_eq (s1 s2 s3 : Option String) :
    ([s1, s2, s3].find? optTruthy).join =
      (if optTruthy (if optTruthy s1 then s1 else pyOrOpt s2 s3) then
        (if optTruthy s1 then s1 else pyOrOpt s2 s3) else none) := by
  by_cases h1 : optTruthy s1 <;> by_cases h2 : optTruthy s2 <;> by_cases h3 : optTruthy s3 <;>
    simp [List.find?, pyOrOpt, h1, h2, h3, Option.join]

/-- C6: the summarization normalizer extracts `article` from `article` and
`summary` from the first usable of `summary`, `highlights`, `summary_text`;
a record is emitted iff both are present and non-empty; on the spec's example
`{article: ["A","B"], highlights: "S"}` it yields article `"A B"`, summary `"S"`. -/
theorem gen_wikilingua_characterization :
    (∀ ex : RawRecord,
      gen_wikilingua_step ex = .ok (
        match _to_str (rget ex "article"), summarySpec ex with
        | some a, some s =>
            if a = "" then none
            else some [("lang", .str "hi"), ("article", .str a),
                       ("summary", .str s), ("url", rgetD ex "url" (.str ""))]
        | _, _ => none)) ∧
    gen_wikilingua_step
        [("article", RawVal.list [RawVal.str "A", RawVal.str "B"]),
         ("highlights", RawVal.str "S")]
      = .ok (some [("lang", .str "hi"), ("article", .str "A B"),
                   ("summary", .str "S"), ("url", .str "")]) := by
  constructor
  · intro ex
    simp only [gen_wikilingua_step, summarySpec]
    rw [find_join_eq]
    by_cases hS : optTruthy (if optTruthy (_to_str (rget ex "summary"))
        then _to_str (rget ex "summary")
        else pyOrOpt (_to_str (rget ex "highlights")) (_to_str (rget ex "summary_text")))
    · rw [if_pos hS]
      cases hsum : (if optTruthy (_to_str (rget ex "summary"))
          then _to_str (rget ex "summary")
          else pyOrOpt (_to_str (rget ex "highlights")) (_to_str (rget ex "summary_text"))) with
      | none => rw [hsum] at hS; simp [optTruthy] at hS
      | some s =>
          rw [hsum] at hS
          have hsne : s ≠ "" := by simpa [optTruthy] using hS
          cases ha : _to_str (rget ex "article") with
          | none => simp
          | some a =>
              by_cases hae : a = ""
              · simp [hae, hsne]
              · simp [hae, hsne]
    · rw [if_neg hS]
      cases hsum : (if optTruthy (_to_str (rget ex "summary"))
          then _to_str (rget ex "summary")
          else pyOrOpt (_to_str (rget ex "highlights")) (_to_str (rget ex "summary_text"))) with
      | none => cases ha : _to_str (rget ex "article") <;> simp
      | some s =>
          rw [hsum] at hS
          have hse : s = "" := by simpa [optTruthy] using hS
          subst hse
          cases ha : _to_str (rget ex "article") <;> simp
  · rfl

/-! ### Claim C2: the Bounded Streaming Iterator -/

/-- The body of a `gen*` generator over a whole raw source: normalize each
record, yield the successes (`for ex in ds: ... if ok: yield rec`). -/
def genLoop {α β : Type} (norm : α → Option β) : List α → List β
  | [] => []
  | x :: xs =>
      match norm x with
      | some b => b :: genLoop norm xs
      | none => genLoop norm xs

/-- The counting loop of `take` (the `limit is not None` branch):
`yield x; n += 1; if n >= limit: break`. -/
def takeLoop {β : Type} : List β → Nat → Nat → List β
  | [], _, _ => []
  | x :: xs, n, m =>
      if m ≤ n + 1 then [x] else x :: takeLoop xs (n + 1) m

/-- `take` from `scripts/01_collect_raw.py`. -/
def take {β : Type} (l : List β) (limit : Option Nat) : List β :=
  match limit with
  | none => l
  | some m => takeLoop l 0 m

/-- Python `limit and n >= limit`. -/
def limitHit (lim : Option Nat) (n : Nat) : Bool :=
  match lim with
  | some m => (m != 0) && decide (m ≤ n)
  | none => false

/-- The loop of `iter_text` from `download_data.py`:
`txt = normalize_text(ex); if txt: yield; n += 1; if limit and n >= limit: break`. -/
def iterTextLoop : List RawVal → Nat → Option Nat → List RawRecord
  | [], _, _ => []
  | x :: xs, n, lim =>
      match iter_text_step x with
      | some rec =>
          if limitHit lim (n + 1) then [rec] else rec :: iterTextLoop xs (n + 1) lim
      | none => iterTextLoop xs n lim

/-- `iter_text` (with the emission counter starting at 0). -/
def iter_text (l : List RawVal) (limit : Option Nat) : List RawRecord :=
  iterTextLoop l 0 limit

theorem genLoop_eq_filterMap {α β : Type} (norm : α → Option β) (l : List α) :
    genLoop norm l = l.filterMap norm := by
  induction l with
  | nil => rfl
  | cons x xs ih =>
      cases h : norm x <;> simp [genLoop, h, ih, List.filterMap_cons]

theorem takeLoop_eq {β : Type} (l : List β) :
    ∀ c m : Nat, c < m → takeLoop l c m = l.take (m - c) := by
  induction l with
  | nil => intro c m _; simp [takeLoop]
  | cons x xs ih =>
      intro c m hc
      rw [takeLoop]
      by_cases h : m ≤ c + 1
      · have hm : m - c = 1 := by omega
        rw [if_pos h, hm]
        rfl
      · rw [if_neg h, ih (c + 1) m (by omega)]
        have hm : m - c = (m - (c + 1)) + 1 := by omega
        rw [hm]
        rfl

theorem takeLoop_zero {β : Type} (l : List β) : ∀ c : Nat, takeLoop l c 0 = l.take 1 := by
  cases l with
  | nil => intro c; rfl
  | cons x xs => intro c; rw [takeLoop, if_pos (by omega)]; rfl

theorem iterTextLoop_some (l : List RawVal) :
    ∀ c m : Nat, m ≠ 0 → c < m →
      iterTextLoop l c (some m) = (l.filterMap iter_text_step).take (m - c) := by
  induction l with
  | nil => intro c m _ _; simp [iterTextLoop]
  | cons x xs ih =>
      intro c m hm hc
      rw [iterTextLoop]
      cases hstep : iter_text_step x with
      | none => rw [List.filterMap_cons_none hstep]; exact ih c m hm hc
      | some rec =>
          rw [List.filterMap_cons_some hstep]
          show (if limitHit (some m) (c + 1) = true then [rec]
              else rec :: iterTextLoop xs (c + 1) (some m))
            = List.take (m - c) (rec :: List.filterMap iter_text_step xs)
          by_cases h : m ≤ c + 1
          · have hhit : limitHit (some m) (c + 1) = true := by
              simp [limitHit, hm, h]
            rw [if_pos hhit]
            have hmc : m - c = 1 := by omega
            rw [hmc]
            rfl
          · have hhit : limitHit (some m) (c + 1) = false := by
              simp [limitHit, h]
            rw [if_neg (by rw [hhit]; exact Bool.false_ne_true),
              ih (c + 1) m hm (by omega)]
            have hmc : m - c = (m - (c + 1)) + 1 := by omega
            rw [hmc]
            rfl

theorem iterTextLoop_nolimit (l : List RawVal) :
    ∀ (c : Nat) (lim : Option Nat), (∀ n, limitHit lim n = false) →
      iterTextLoop l c lim = l.filterMap iter_text_step := by
  induction l with
  | nil => intro c lim _; simp [iterTextLoop]
  | cons x xs ih =>
      intro c lim hlim
      rw [iterTextLoop]
      cases hstep : iter_text_step x with
      | none => rw [List.filterMap_cons_none hstep]; exact ih c lim hlim
      | some rec =>
          rw [List.filterMap_cons_some hstep]
          show (if limitHit lim (c + 1) = true then [rec]
              else rec :: iterTextLoop xs (c + 1) lim)
            = rec :: List.filterMap iter_text_step xs
          rw [if_neg (by rw [hlim (c + 1)]; exact Bool.false_ne_true)]
          rw [ih (c + 1) lim hlim]

/-- C2 counterexample: with `limit = 0` and one normalizable record, `take`
yields 1 record where the claim demands `min(0, 1) = 0`. -/
theorem take_limit_zero_yields_one :
    take (genLoop (fun x : Nat => some x) [1]) (some 0) = [1] ∧
    min 0 (genLoop (fun x : Nat => some x) [1]).length = 0 := ⟨rfl, rfl⟩

/-- C2 amended: for every limit `n ≥ 1` the Bounded Streaming Iterator yields
exactly `min n (number of normalizable records)` canonical records, stops
pulling raw records once `n` are emitted (appending more raw records changes
nothing), and consumes the source to exhaustion when the limit is unset; with
limit `0`, `take` emits one record and `iter_text` consumes to exhaustion. -/
theorem bounded_iterator_amended :
    (∀ {α β : Type} (norm : α → Option β) (l : List α) (m : Nat), 1 ≤ m →
      take (genLoop norm l) (some m) = (genLoop norm l).take m ∧
      (take (genLoop norm l) (some m)).length = min m (genLoop norm l).length ∧
      ∀ rest, m ≤ (genLoop norm l).length →
        take (genLoop norm (l ++ rest)) (some m) = take (genLoop norm l) (some m)) ∧
    (∀ {β : Type} (l : List β), take l none = l) ∧
    (∀ {β : Type} (l : List β), take l (some 0) = l.take 1) ∧
    (∀ (l : List RawVal) (m : Nat), 1 ≤ m →
      iter_text l (some m) = (l.filterMap iter_text_step).take m ∧
      (iter_text l (some m)).length = min m (l.filterMap iter_text_step).length ∧
      ∀ rest, m ≤ (l.filterMap iter_text_step).length →
        iter_text (l ++ rest) (some m) = iter_text l (some m)) ∧
    (∀ l : List RawVal, iter_text l none = l.filterMap iter_text_step) ∧
    (∀ l : List RawVal, iter_text l (some 0) = l.filterMap iter_text_step) := by
  have htake : ∀ {β : Type} (l : List β) (m : Nat), 1 ≤ m →
      take l (some m) = l.take m := by
    intro β l m hm
    show takeLoop l 0 m = l.take m
    rw [takeLoop_eq l 0 m (by omega), Nat.sub_zero]
  have hiter : ∀ (l : List RawVal) (m : Nat), 1 ≤ m →
      iter_text l (some m) = (l.filterMap iter_text_step).take m := by
    intro l m hm
    show iterTextLoop l 0 (some m) = (l.filterMap iter_text_step).take m
    rw [iterTextLoop_some l 0 m (by omega) (by omega), Nat.sub_zero]
  refine ⟨fun norm l m hm => ⟨htake _ m hm, ?_, fun rest hrest => ?_⟩,
    fun l => rfl, fun l => takeLoop_zero l 0,
    fun l m hm => ⟨hiter l m hm, ?_, fun rest hrest => ?_⟩,
    fun l => iterTextLoop_nolimit l 0 none (fun n => rfl),
    fun l => iterTextLoop_nolimit l 0 (some 0) (fun n => rfl)⟩
  · rw [htake _ m hm, List.length_take]
  · rw [htake _ m hm, htake _ m hm, genLoop_eq_filterMap, genLoop_eq_filterMap,
      List.filterMap_append, List.take_append_of_le_length]
    rwa [genLoop_eq_filterMap] at hrest
  · rw [hiter l m hm, List.length_take]
  · rw [hiter _ m hm, hiter _ m hm, List.filterMap_append,
      List.take_append_of_le_length hrest]

/-- Witness for `bounded_iterator_amended`: limit 3 on a source with 4
normalizable records, also unaffected by appending two more raw records. -/
theorem bounded_iterator_witness :
    (take (genLoop (fun x : Nat => some x) [1, 2, 3, 4]) (some 3)
      = (genLoop (fun x : Nat => some x) [1, 2, 3, 4]).take 3) ∧
    (take (genLoop (fun x : Nat => some x) ([1, 2, 3, 4] ++ [5, 6])) (some 3)
      = take (genLoop (fun x : Nat => some x) [1, 2, 3, 4]) (some 3)) ∧
    iter_text [RawVal.dict [("text", RawVal.str "a")]] none
      = List.filterMap iter_text_step [RawVal.dict [("text", RawVal.str "a")]] :=
  ⟨(bounded_iterator_amended.1 (fun x : Nat => some x) [1, 2, 3, 4] 3 (by decide)).1,
   (bounded_iterator_amended.1 (fun x : Nat => some x) [1, 2, 3, 4] 3
      (by decide)).2.2 [5, 6] (by decide),
   bounded_iterator_amended.2.2.2.2.1 [RawVal.dict [("text", RawVal.str "a")]]⟩

/-! ### Claim C7: the Source Resolver (candidate loop of `collect_wikilingua`) -/

/-- A successfully loaded dataset handle, identified by the candidate that
produced it. -/
structure DSHandle where
  builder : String
  config : String
  deriving DecidableEq

/-- The ordered `(builder, config)` candidates tried by `collect_wikilingua`. -/
def wikilingua_candidates : List (String × String) :=
  [("wiki_lingua", "hindi"), ("wikilingua", "hi"), ("wiki_lingua", "hi")]

/-- The `for builder, config in [...]: try ... except` loop: first success
wins, failures accumulate `f"{builder}/{config}: {e}"` into `tried`. -/
def resolveLoop (load : String × String → Except String DSHandle) :
    List (String × String) → List String → Option DSHandle × List String
  | [], tried => (none, tried)
  | c :: rest, tried =>
      match load c with
      | .ok ds => (some ds, tried)
      | .error e => resolveLoop load rest (tried ++ [c.1 ++ "/" ++ c.2 ++ ": " ++ e])

/-- The resolver part of `collect_wikilingua`: the candidate loop followed by
`if ds is None: raise RuntimeError(...)`. -/
def collect_wikilingua_resolve (load : String × String → Except String DSHandle) :
    Except String DSHandle :=
  match resolveLoop load wikilingua_candidates [] with
  | (some ds, _) => .ok ds
  | (none, tried) =>
      .error ("Could not load WikiLingua Hindi. Tried:\x0A  - "
        ++ joinWith "\x0A  - " tried)

/-- C7: candidates are tried in order and the first success is returned; the
resolver errors iff every candidate fails, and then the message carries the
ordered candidates with their individual failure reasons. -/
theorem source_resolver_first_success
    (load : String × String → Except String DSHandle) :
    (∀ ds, load ("wiki_lingua", "hindi") = .ok ds →
      collect_wikilingua_resolve load = .ok ds) ∧
    (∀ e1 ds, load ("wiki_lingua", "hindi") = .error e1 →
      load ("wikilingua", "hi") = .ok ds →
      collect_wikilingua_resolve load = .ok ds) ∧
    (∀ e1 e2 ds, load ("wiki_lingua", "hindi") = .error e1 →
      load ("wikilingua", "hi") = .error e2 →
      load ("wiki_lingua", "hi") = .ok ds →
      collect_wikilingua_resolve load = .ok ds) ∧
    (∀ e1 e2 e3, load ("wiki_lingua", "hindi") = .error e1 →
      load ("wikilingua", "hi") = .error e2 →
      load ("wiki_lingua", "hi") = .error e3 →
      collect_wikilingua_resolve load =
        .error ("Could not load WikiLingua Hindi. Tried:\x0A  - "
          ++ joinWith "\x0A  - "
            ["wiki_lingua/hindi: " ++ e1, "wikilingua/hi: " ++ e2,
             "wiki_lingua/hi: " ++ e3])) ∧
    (∀ e, collect_wikilingua_resolve load = .error e →
      ∃ e1 e2 e3, load ("wiki_lingua", "hindi") = .error e1 ∧
        load ("wikilingua", "hi") = .error e2 ∧
        load ("wiki_lingua", "hi") = .error e3) := by
  refine ⟨fun ds h1 => ?_, fun e1 ds h1 h2 => ?_, fun e1 e2 ds h1 h2 h3 => ?_,
    fun e1 e2 e3 h1 h2 h3 => ?_, fun e herr => ?_⟩
  · simp [collect_wikilingua_resolve, wikilingua_candidates, resolveLoop, h1]
  · simp [collect_wikilingua_resolve, wikilingua_candidates, resolveLoop, h1, h2]
  · simp [collect_wikilingua_resolve, wikilingua_candidates, resolveLoop, h1, h2, h3]
  · simp [collect_wikilingua_resolve, wikilingua_candidates, resolveLoop, h1, h2, h3,
      joinWith]
  · cases h1 : load ("wiki_lingua", "hindi") with
    | ok ds => simp [collect_wikilingua_resolve, wikilingua_candidates,
        resolveLoop, h1] at herr
    | error e1 =>
        cases h2 : load ("wikilingua", "hi") with
        | ok ds => simp [collect_wikilingua_resolve, wikilingua_candidates,
            resolveLoop, h1, h2] at herr
        | error e2 =>
            cases h3 : load ("wiki_lingua", "hi") with
            | ok ds => simp [collect_wikilingua_resolve, wikilingua_candidates,
                resolveLoop, h1, h2, h3] at herr
            | error e3 => exact ⟨e1, e2, e3, rfl, rfl, rfl⟩

/-- Witness for `source_resolver_first_success`: only the second candidate
loads; and the all-fail case. -/
theorem source_resolver_witness :
    collect_wikilingua_resolve
        (fun c => if c = ("wikilingua", "hi") then .ok ⟨"wikilingua", "hi"⟩
          else .error "404")
      = .ok ⟨"wikilingua", "hi"⟩ ∧
    collect_wikilingua_resolve (fun _ => .error "404")
      = .error ("Could not load WikiLingua Hindi. Tried:\x0A  - "
          ++ joinWith "\x0A  - "
            ["wiki_lingua/hindi: " ++ "404", "wikilingua/hi: " ++ "404",
             "wiki_lingua/hi: " ++ "404"]) :=
  ⟨(source_resolver_first_success _).2.1 "404" _ rfl rfl,
   (source_resolver_first_success _).2.2.2.1 "404" "404" "404" rfl rfl rfl⟩

/-! ### Claims C8 and C9: the Durable Writer (`write_jsonl`) -/

/-- A JSON value, as serialized by `json.dumps` for the canonical records. -/
inductive J where
  | null
  | str (s : String)
  | arr (xs : List J)
  | obj (kvs : List (String × J))

/-- Lower-case hex digit. -/
def hexDigit (n : Nat) : Char :=
  if n < 10 then Char.ofNat (48 + n) else Char.ofNat (87 + n)

/-- `json.dumps` string escaping with `ensure_ascii=False`: only the quote,
the backslash and control characters are escaped; everything else (all
non-ASCII included) is emitted literally. -/
def escapeChar (c : Char) : List Char :=
  if c = '"' then ['\\', '"']
  else if c = '\\' then ['\\', '\\']
  else if c = '\x0A' then ['\\', 'n']
  else if c = '\x09' then ['\\', 't']
  else if c = '\x0D' then ['\\', 'r']
  else if c = '\x08' then ['\\', 'b']
  else if c = '\x0C' then ['\\', 'f']
  else if c.toNat < 32 then
    ['\\', 'u', '0', '0', hexDigit (c.toNat / 16), hexDigit (c.toNat % 16)]
  else [c]

def escapeStr (s : String) : String :=
  String.mk (s.data.map escapeChar).flatten

mutual

/-- `json.dumps(rec, ensure_ascii=False)` with the default separators. -/
def dumps : J → String
  | .null => "null"
  | .str s => "\"" ++ escapeStr s ++ "\""
  | .arr xs => "[" ++ dumpsList xs ++ "]"
  | .obj kvs => "\x7b" ++ dumpsObj kvs ++ "\x7d"

/-- `", ".join` over serialized array items. -/
def dumpsList : List J → String
  | [] => ""
  | x :: xs => dumps x ++ (if xs.isEmpty then "" else ", ") ++ dumpsList xs

/-- `", ".join` over serialized `"key": value` object items. -/
def dumpsObj : List (String × J) → String
  | [] => ""
  | (k, v) :: rest =>
      "\"" ++ escapeStr k ++ "\": " ++ dumps v
        ++ (if rest.isEmpty then "" else ", ") ++ dumpsObj rest

end

/-- The file contents produced by the `write_jsonl` loop:
`f.write(json.dumps(rec, ensure_ascii=False) + "\n")` per record. -/
def writeJsonlContent : List J → String
  | [] => ""
  | r :: rs => dumps r ++ "\x0A" ++ writeJsonlContent rs

theorem hexDigit_ne_nl : ∀ n : Nat, n < 16 → hexDigit n ≠ '\x0A' := by decide

theorem escapeChar_no_nl (c : Char) : '\x0A' ∉ escapeChar c := by
  unfold escapeChar
  split_ifs with h1 h2 h3 h4 h5 h6 h7 h8
  · decide
  · decide
  · decide
  · decide
  · decide
  · decide
  · decide
  · intro hmem
    simp only [List.mem_cons, List.not_mem_nil, or_false] at hmem
    rcases hmem with h | h | h | h | h | h
    · exact absurd h (by decide)
    · exact absurd h (by decide)
    · exact absurd h (by decide)
    · exact absurd h (by decide)
    · exact hexDigit_ne_nl (c.toNat / 16) (by omega) h.symm
    · exact hexDigit_ne_nl (c.toNat % 16) (by omega) h.symm
  · intro hmem
    simp only [List.mem_cons, List.not_mem_nil, or_false] at hmem
    rw [← hmem] at h8
    exact h8 (by decide)

theorem escapeStr_no_nl (s : String) : '\x0A' ∉ (escapeStr s).data := by
  intro hmem
  unfold escapeStr at hmem
  rw [show (String.mk (s.data.map escapeChar).flatten).data
      = (s.data.map escapeChar).flatten from rfl, List.mem_flatten] at hmem
  obtain ⟨part, hpart, hin⟩ := hmem
  rw [List.mem_map] at hpart
  obtain ⟨c, -, rfl⟩ := hpart
  exact escapeChar_no_nl c hin

theorem no_nl_append {a b : String} (ha : '\x0A' ∉ a.data) (hb : '\x0A' ∉ b.data) :
    '\x0A' ∉ (a ++ b).data := by
  rw [String.data_append]
  intro h
  rcases List.mem_append.mp h with h2 | h2
  · exact ha h2
  · exact hb h2

theorem no_nl_sep (b : Bool) : '\x0A' ∉ ((if b then "" else ", ") : String).data := by
  cases b <;> decide

theorem dumps_no_nl_all : ∀ n : Nat,
    (∀ j : J, sizeOf j ≤ n → '\x0A' ∉ (dumps j).data) ∧
    (∀ xs : List J, sizeOf xs ≤ n → '\x0A' ∉ (dumpsList xs).data) ∧
    (∀ kvs : List (String × J), sizeOf kvs ≤ n → '\x0A' ∉ (dumpsObj kvs).data) := by
  intro n
  induction n using Nat.strong_induction_on with
  | _ n ih =>
    refine ⟨fun j hj => ?_, fun xs hxs => ?_, fun kvs hkvs => ?_⟩
    · cases j with
      | null => decide
      | str s =>
          rw [dumps]
          exact no_nl_append (no_nl_append (by decide) (escapeStr_no_nl s)) (by decide)
      | arr xs =>
          have hsz : sizeOf (J.arr xs) = 1 + sizeOf xs := by simp
          rw [dumps]
          exact no_nl_append
            (no_nl_append (by decide)
              ((ih (sizeOf xs) (by omega)).2.1 xs (le_refl _)))
            (by decide)
      | obj kvs =>
          have hsz : sizeOf (J.obj kvs) = 1 + sizeOf kvs := by simp
          rw [dumps]
          exact no_nl_append
            (no_nl_append (by decide)
              ((ih (sizeOf kvs) (by omega)).2.2 kvs (le_refl _)))
            (by decide)
    · cases xs with
      | nil => decide
      | cons x xs2 =>
          have hsz : sizeOf (x :: xs2) = 1 + sizeOf x + sizeOf xs2 := by simp
          rw [dumpsList]
          exact no_nl_append
            (no_nl_append ((ih (sizeOf x) (by omega)).1 x (le_refl _))
              (no_nl_sep xs2.isEmpty))
            ((ih (sizeOf xs2) (by omega)).2.1 xs2 (le_refl _))
    · cases kvs with
      | nil => decide
      | cons kv rest =>
          obtain ⟨k, v⟩ := kv
          have hsz : sizeOf ((k, v) :: rest) = 1 + (1 + sizeOf k + sizeOf v) + sizeOf rest := by
            simp
          rw [dumpsObj]
          refine no_nl_append (no_nl_append (no_nl_append (no_nl_append ?_ ?_) ?_) ?_) ?_
          · exact no_nl_append (by decide) (escapeStr_no_nl k)
          · decide
          · exact (ih (sizeOf v) (by omega)).1 v (le_refl _)
          · exact no_nl_sep rest.isEmpty
          · exact (ih (sizeOf rest) (by omega)).2.2 rest (le_refl _)

theorem writeJsonlContent_join : ∀ (r : J) (rs : List J),
    writeJsonlContent (r :: rs) = joinWith "\x0A" ((r :: rs).map dumps) ++ "\x0A" := by
  intro r rs
  induction rs generalizing r with
  | nil =>
      show dumps r ++ "\x0A" ++ "" = joinWith "\x0A" [dumps r] ++ "\x0A"
      simp [joinWith]
  | cons r2 rs2 ih =>
      show dumps r ++ "\x0A" ++ writeJsonlContent (r2 :: rs2) = _
      rw [ih r2]
      simp [joinWith, String.append_assoc]

/-- C8 counterexample: even a single-record file ends with the line delimiter
after the last record — the writer emits `dumps(rec) + "\n"` for every record,
the last included. -/
theorem writeJsonl_trailing_delimiter :
    writeJsonlContent [J.obj [("lang", J.str "hi")]]
      = dumps (J.obj [("lang", J.str "hi")]) ++ "\x0A" ∧
    writeJsonlContent [J.obj [("lang", J.str "hi")]]
      ≠ joinWith "\x0A" (List.map dumps [J.obj [("lang", J.str "hi")]]) := by
  constructor
  · show dumps (J.obj [("lang", J.str "hi")]) ++ "\x0A" ++ "" = _
    simp
  · decide

/-- C8 amended: the output is one JSON object per line in record order, each
line (the last included) terminated by exactly one newline; serialized records
contain no embedded newline, and every non-control character other than the
quote and the backslash — all non-ASCII text included — is emitted literally. -/
theorem writeJsonl_line_per_record (rs : List J) (hne : rs ≠ []) :
    writeJsonlContent rs = joinWith "\x0A" (rs.map dumps) ++ "\x0A" ∧
    (∀ r ∈ rs, '\x0A' ∉ (dumps r).data) ∧
    (∀ c : Char, 32 ≤ c.toNat → c ≠ '"' → c ≠ '\\' → escapeChar c = [c]) := by
  refine ⟨?_, fun r _ => (dumps_no_nl_all (sizeOf r)).1 r (le_refl _), ?_⟩
  · cases rs with
    | nil => exact absurd rfl hne
    | cons r rest => exact writeJsonlContent_join r rest
  · intro c hge hq hb
    unfold escapeChar
    split_ifs with h1 h2 h3 h4 h5 h6 h7 <;>
      first
        | rfl
        | exact absurd h1 hq
        | exact absurd h2 hb
        | (exfalso; subst_vars; revert hge; decide)
        | omega

/-- Witness for `writeJsonl_line_per_record` on a Devanagari record. -/
theorem writeJsonl_line_per_record_witness :
    writeJsonlContent [J.str "नमस्ते"]
      = joinWith "\x0A" ([J.str "नमस्ते"].map dumps) ++ "\x0A" ∧
    '\x0A' ∉ (dumps (J.str "नमस्ते")).data ∧
    escapeChar 'न' = ['न'] :=
  ⟨(writeJsonl_line_per_record [J.str "नमस्ते"] (by simp)).1,
   (writeJsonl_line_per_record [J.str "नमस्ते"] (by simp)).2.1 (J.str "नमस्ते") (by simp),
   (writeJsonl_line_per_record [J.str "नमस्ते"] (by simp)).2.2 'न'
     (by decide) (by decide) (by decide)⟩

/-- All directories created by `path.parent.mkdir(parents=True, exist_ok=True)`:
every non-empty prefix of the parent path. -/
def ancestors (p : List String) : List (List String) :=
  p.dropLast.inits.filter (fun q => !q.isEmpty)

/-- A minimal filesystem state: existing directories and file contents. -/
structure FS where
  dirs : List (List String)
  files : List String → Option String

/-- The effect of `write_jsonl(path, records)`: create the parent directories,
then open `path` in mode `"w"` (full rewrite) and write the serialized
records; prior contents at `path` are discarded, all other files untouched. -/
def write_jsonl (fs : FS) (path : List String) (recs : List J) : FS :=
  { dirs := ancestors path ++ fs.dirs,
    files := fun q => if q = path then some (writeJsonlContent recs) else fs.files q }

/-- C9: writing zero records still creates the parent directories and leaves a
valid empty file at the target, and the resulting contents never depend on
what was previously stored there (full rewrite, never append). -/
theorem write_jsonl_empty_rewrite (fs : FS) (path : List String) :
    (write_jsonl fs path []).files path = some "" ∧
    (∀ d ∈ ancestors path, d ∈ (write_jsonl fs path []).dirs) ∧
    (∀ recs : List J,
      (write_jsonl fs path recs).files path = some (writeJsonlContent recs)) := by
  refine ⟨?_, fun d hd => ?_, fun recs => ?_⟩
  · simp [write_jsonl, writeJsonlContent]
  · exact List.mem_append.mpr (Or.inl hd)
  · simp [write_jsonl]

/-- Witness for `write_jsonl_empty_rewrite`: a file under `data/raw` over a
filesystem whose prior contents differ. -/
theorem write_jsonl_empty_rewrite_witness :
    (write_jsonl ⟨[], fun _ => some "OLD"⟩ ["data", "raw", "f.jsonl"] []).files
        ["data", "raw", "f.jsonl"] = some "" ∧
    ["data"] ∈ (write_jsonl ⟨[], fun _ => some "OLD"⟩ ["data", "raw", "f.jsonl"] []).dirs :=
  ⟨(write_jsonl_empty_rewrite ⟨[], fun _ => some "OLD"⟩ ["data", "raw", "f.jsonl"]).1,
   (write_jsonl_empty_rewrite ⟨[], fun _ => some "OLD"⟩ ["data", "raw", "f.jsonl"]).2.1
     ["data"] (by decide)⟩
